import Mathlib

/-!
Shallow embedding of frida-gum's POSIX memory backend
(src/gum/backend-posix/gummemory-posix.c).

Modelling conventions:
* Addresses and sizes (gpointer, gsize, GumAddress) are natural numbers.
  C unsigned 64-bit (gsize / GumAddress) arithmetic is modelled with an
  explicit modulus 2^64 via add64 / sub64; C pointer arithmetic (whose
  overflow is undefined behaviour) is modelled with plain Nat arithmetic.
* OS primitives (mmap, munmap, madvise) and the external range enumerator
  are oracles passed in as function parameters; the functions below
  translate the backend's own control flow and arithmetic over them.
* Side effects relevant to the claims (the header-page store and the
  mprotect calls) are recorded as an explicit event list.
-/

/-- Modulus of the 64-bit unsigned integer types gsize / GumAddress. -/
def gsize_mod : Nat := 2 ^ 64

/-- C unsigned 64-bit subtraction a - b (both operands < 2^64). -/
def sub64 (a b : Nat) : Nat := (gsize_mod + a - b) % gsize_mod

/-- C unsigned 64-bit addition. -/
def add64 (a b : Nat) : Nat := (a + b) % gsize_mod

/-- The C expression ABS (near - base) from
gum_try_alloc_in_range_if_near_enough: the pointer difference is taken in
two's complement int64 and ABS is applied, so the result is the smaller of
(near - base) mod 2^64 and its 64-bit complement. -/
def absDiff64 (near base : Nat) : Nat :=
  let d := sub64 near base
  if d < 2 ^ 63 then d else gsize_mod - d

/-- GUM_ALIGN_SIZE (s, b) from gumdefs.h (not under src/).
Modelled from the spec: round s up to the next multiple of the
power-of-two b, i.e. ((s + (b - 1)) mod 2^64) with the low bits cleared;
for a power of two, clearing the low bits is division-then-multiplication.
The same macro (via GUM_ALIGN_POINTER) is applied to the address hint and
to the mapped base in gum_memory_allocate; the trimming invariant of spec
section 4.5 step 4 (alignedBase = roundUp(base, alignment)) forces the
round-up reading. -/
def gum_align_size (s b : Nat) : Nat := (s + (b - 1)) % gsize_mod / b * b

/-- Modelled from the spec: ProtectionFlags is a set over
{Read, Write, Execute}; GumPageProtection (gumdefs.h, not under src/) is
its bitmask representation. -/
structure GumPageProtection where
  read : Bool
  write : Bool
  execute : Bool
deriving DecidableEq

def GUM_PAGE_NO_ACCESS : GumPageProtection := ⟨false, false, false⟩

def GUM_PAGE_READ : GumPageProtection := ⟨true, false, false⟩

def GUM_PAGE_RW : GumPageProtection := ⟨true, true, false⟩

def PROT_NONE : Nat := 0

def PROT_READ : Nat := 1

def PROT_WRITE : Nat := 2

def PROT_EXEC : Nat := 4

/-- _gum_page_protection_to_posix (the Lean name drops the leading
underscore).  The C builds the value with |= over disjoint bits, which is
addition here. -/
def gum_page_protection_to_posix (page_prot : GumPageProtection) : Nat :=
  PROT_NONE
    + (if page_prot.read then PROT_READ else 0)
    + (if page_prot.write then PROT_WRITE else 0)
    + (if page_prot.execute then PROT_EXEC else 0)

/-- GumMemoryRange from gumdefs.h (not under src/).
Modelled from the spec: MemoryRange is {base: Address, size: UnsignedSize}. -/
structure GumMemoryRange where
  base_address : Nat
  size : Nat
deriving DecidableEq

/-- GumAddressSpec from gumdefs.h (not under src/).
Modelled from the spec: AddressSpec is {target: Address, maxDistance}. -/
structure GumAddressSpec where
  near_address : Nat
  max_distance : Nat
deriving DecidableEq

/-- GumAllocNearContext (gummemory-posix.c).  result = NULL is none. -/
structure GumAllocNearContext where
  result : Option Nat
  size : Nat
  posix_page_prot : Nat
  address_spec : GumAddressSpec
deriving DecidableEq

/-- Side effects of the allocators that the claims talk about:
gum_mprotect calls and the header-page store (*(gsize *) result = size). -/
inductive Event where
  | mprotect (address size : Nat) (prot : GumPageProtection)
  | storeWord (address value : Nat)
deriving DecidableEq

/-- Outcome of gum_memory_allocate: the returned pointer, the successful
mmap (base, length) if any, the regions handed back via gum_memory_free
during trimming, and whether the final g_assert condition held. -/
structure GumAllocateOutcome where
  result : Option Nat
  mapped : Option (Nat × Nat)
  frees : List (Nat × Nat)
  assert_ok : Bool
deriving DecidableEq

/-- gum_allocate_page_aligned: a direct mmap(address, size, prot,
MAP_PRIVATE | MAP_ANONYMOUS) wrapper; MAP_FAILED becomes none.  The OS is
the oracle mm. -/
def gum_allocate_page_aligned (mm : Nat → Nat → Nat → Option Nat)
    (address size prot : Nat) : Option Nat :=
  mm address size prot

/-- The gsize expression size + (alignment - page_size) rounded up to the
page size, from gum_memory_allocate lines 189-190. -/
def gum_allocation_size (page_size size alignment : Nat) : Nat :=
  gum_align_size (add64 size (sub64 alignment page_size)) page_size

/-- gum_memory_allocate (gummemory-posix.c lines 177-216).  front_size is
the source's prefix_size.  Subtractions on gsize allocation_size wrap mod
2^64; aligned_base - base is a pointer difference (aligned_base ≥ base
whenever the align-up does not wrap). -/
def gum_memory_allocate (page_size : Nat) (mm : Nat → Nat → Nat → Option Nat)
    (address size alignment : Nat) (page_prot : GumPageProtection) :
    GumAllocateOutcome :=
  let address := gum_align_size address alignment
  let allocation_size := gum_allocation_size page_size size alignment
  match gum_allocate_page_aligned mm address allocation_size
      (gum_page_protection_to_posix page_prot) with
  | none => { result := none, mapped := none, frees := [], assert_ok := true }
  | some base =>
    let aligned_base := gum_align_size base alignment
    let front_size := aligned_base - base
    let frees1 : List (Nat × Nat) :=
      if aligned_base ≠ base then [(base, front_size)] else []
    let size1 : Nat :=
      if aligned_base ≠ base then sub64 allocation_size front_size
      else allocation_size
    let suffix_size := sub64 size1 size
    let frees2 : List (Nat × Nat) :=
      if size1 ≠ size then frees1 ++ [(aligned_base + size, suffix_size)] else frees1
    let size2 : Nat := if size1 ≠ size then sub64 size1 suffix_size else size1
    { result := some aligned_base, mapped := some (base, allocation_size),
      frees := frees2, assert_ok := decide (size2 = size) }

/-- gum_try_alloc_n_pages (gummemory-posix.c lines 70-90): one hidden
header page plus n_pages usable pages; the header receives the total size
and is then made read-only.  Returns the usable pointer and the event
trace of the header manipulation. -/
def gum_try_alloc_n_pages (page_size : Nat) (mm : Nat → Nat → Nat → Option Nat)
    (n_pages : Nat) (page_prot : GumPageProtection) : Option Nat × List Event :=
  let size := (1 + n_pages) * page_size
  let out := gum_memory_allocate page_size mm 0 size page_size page_prot
  match out.result with
  | none => (none, [])
  | some result =>
    ((some (result + page_size)),
      (if page_prot.write then [] else [Event.mprotect result page_size GUM_PAGE_RW])
        ++ [Event.storeWord result size,
            Event.mprotect result page_size GUM_PAGE_READ])

/-- gum_free_pages (gummemory-posix.c lines 165-175): recover the size
from the header page (via the readWord oracle for memory contents) and
release the full region; munmapOk is the munmap success oracle behind
gum_memory_release / gum_memory_free.  Returns the released (start, size)
and the success flag. -/
def gum_free_pages (page_size : Nat) (readWord : Nat → Nat)
    (munmapOk : Nat → Nat → Bool) (mem : Nat) : (Nat × Nat) × Bool :=
  let start := mem - page_size
  let size := readWord start
  ((start, size), munmapOk start size)

/-- gum_emit_free_range (gummemory-posix.c lines 280-316), acting on the
context fields (user_data, prev_end) with the client callback func fixed.
start, end and gap_size are GumAddress (64-bit) values. -/
def gum_emit_free_range {σ : Type} (func : GumMemoryRange → σ → σ × Bool)
    (range : GumMemoryRange) (user_data : σ) (prev_end : Nat) :
    (σ × Nat) × Bool :=
  let start := range.base_address
  let e := add64 start range.size
  if prev_end ≠ 0 then
    let gap_size := sub64 start prev_end
    if 0 < gap_size then
      let r := func ⟨prev_end, gap_size⟩ user_data
      ((r.1, e), r.2)
    else ((user_data, e), true)
  else ((user_data, e), true)

/-- The external range enumerator _gum_process_enumerate_ranges (not under
src/), specialised to driving gum_emit_free_range.  Modelled from the
spec, section 6: the collaborator reports each occupied range in order and
stops as soon as the callback returns false. -/
def gum_process_enumerate_ranges {σ : Type} (func : GumMemoryRange → σ → σ × Bool)
    (occupied : List GumMemoryRange) (acc : σ × Nat) : σ × Nat :=
  match occupied with
  | [] => acc
  | r :: rs =>
    match gum_emit_free_range func r acc.1 acc.2 with
    | (acc2, true) => gum_process_enumerate_ranges func rs acc2
    | (acc2, false) => acc2

/-- gum_enumerate_free_ranges (gummemory-posix.c lines 271-278):
prev_end starts at 0 (the "unset" sentinel). -/
def gum_enumerate_free_ranges {σ : Type} (func : GumMemoryRange → σ → σ × Bool)
    (user_data : σ) (occupied : List GumMemoryRange) : σ :=
  (gum_process_enumerate_ranges func occupied (user_data, 0)).1

/-- gum_try_alloc_in_range_if_near_enough (gummemory-posix.c lines
119-152).  mmapFixed is the MAP_FIXED mmap oracle (base, size, posix
protection); returning true means the fixed mapping succeeded. -/
def gum_try_alloc_in_range_if_near_enough (mmapFixed : Nat → Nat → Nat → Bool)
    (range : GumMemoryRange) (ctx : GumAllocNearContext) :
    GumAllocNearContext × Bool :=
  if range.size < ctx.size then (ctx, true)
  else
    let base1 := range.base_address
    let dist1 := absDiff64 ctx.address_spec.near_address base1
    let cand : Nat × Nat :=
      if ctx.address_spec.max_distance < dist1 then
        let base2 := sub64 (add64 range.base_address range.size) ctx.size
        (base2, absDiff64 ctx.address_spec.near_address base2)
      else (base1, dist1)
    if ctx.address_spec.max_distance < cand.2 then (ctx, true)
    else if mmapFixed cand.1 ctx.size ctx.posix_page_prot then
      ({ ctx with result := some cand.1 }, false)
    else
      ({ ctx with result := none }, true)

/-- gum_try_alloc_n_pages_near (gummemory-posix.c lines 92-117): scan the
free ranges with gum_try_alloc_in_range_if_near_enough, then apply the
same header procedure as gum_try_alloc_n_pages. -/
def gum_try_alloc_n_pages_near (page_size : Nat)
    (mmapFixed : Nat → Nat → Nat → Bool) (occupied : List GumMemoryRange)
    (n_pages : Nat) (page_prot : GumPageProtection)
    (address_spec : GumAddressSpec) : Option Nat × List Event :=
  let ctx : GumAllocNearContext :=
    { result := none, size := (1 + n_pages) * page_size,
      posix_page_prot := gum_page_protection_to_posix page_prot,
      address_spec := address_spec }
  let ctx := gum_enumerate_free_ranges
    (fun r c => gum_try_alloc_in_range_if_near_enough mmapFixed r c) ctx occupied
  match ctx.result with
  | none => (none, [])
  | some result =>
    ((some (result + page_size)),
      (if page_prot.write then [] else [Event.mprotect result page_size GUM_PAGE_RW])
        ++ [Event.storeWord result ctx.size,
            Event.mprotect result page_size GUM_PAGE_READ])

def MADV_FREE : Nat := 8

def MADV_DONTNEED : Nat := 4

def ENOSYS : Nat := 38

def EINVAL : Nat := 22

/-- gum_memory_decommit (gummemory-posix.c lines 252-269).  The madvise
oracle returns none on success and some errno on failure.  Also returns
the list of advices issued, in order. -/
def gum_memory_decommit (madvise : Nat → Nat → Nat → Option Nat)
    (address size : Nat) : Bool × List Nat :=
  match madvise address size MADV_FREE with
  | none => (true, [MADV_FREE])
  | some e =>
    if e = ENOSYS then (true, [MADV_FREE])
    else if e = EINVAL then
      match madvise address size MADV_DONTNEED with
      | none => (true, [MADV_FREE, MADV_DONTNEED])
      | some _ => (false, [MADV_FREE, MADV_DONTNEED])
    else (false, [MADV_FREE])

/-!  Specification-side definitions, written from the claims' words, to be
compared with the translated code above. -/

/-- Well-formed collaborator feed (spec sections 3 and 4.3): occupied
ranges arrive in ascending, non-overlapping base-address order, every
range has positive size, and every range lies inside the 64-bit address
space; prev_end is the end of the previously reported range. -/
def wfFrom (prev_end : Nat) : List GumMemoryRange → Bool
  | [] => true
  | r :: rs =>
    decide (prev_end ≤ r.base_address) && decide (0 < r.size)
      && decide (r.base_address + r.size < gsize_mod)
      && wfFrom (r.base_address + r.size) rs

/-- The gaps strictly between consecutive occupied ranges, starting after
an occupied range ending at prev_end (spec section 4.3). -/
def specGapsFrom (prev_end : Nat) : List GumMemoryRange → List GumMemoryRange
  | [] => []
  | r :: rs =>
    if prev_end < r.base_address then
      ⟨prev_end, r.base_address - prev_end⟩
        :: specGapsFrom (r.base_address + r.size) rs
    else specGapsFrom (r.base_address + r.size) rs

/-- All gaps strictly between two consecutive occupied ranges: nothing
before the first range and nothing after the last. -/
def specGaps : List GumMemoryRange → List GumMemoryRange
  | [] => []
  | r :: rs => specGapsFrom (r.base_address + r.size) rs

/-- The elements of a list up to and including the first one the client
predicate stops at. -/
def takeThroughStop {α : Type} (p : α → Bool) : List α → List α
  | [] => []
  | a :: as => if p a then a :: takeThroughStop p as else [a]

/-- Folding a stop-signalling callback over a list, as the scan delivers
gaps to it. -/
def foldStop {σ : Type} (func : GumMemoryRange → σ → σ × Bool) (s : σ) :
    List GumMemoryRange → σ
  | [] => s
  | g :: gs =>
    match func g s with
    | (s2, true) => foldStop func s2 gs
    | (s2, false) => s2

/-- Running the free-range scan with a callback that records every emitted
free range and continues while the client predicate p says to. -/
def collectFreeRanges (p : GumMemoryRange → Bool)
    (occupied : List GumMemoryRange) : List GumMemoryRange :=
  gum_enumerate_free_ranges (fun r acc => (acc ++ [r], p r)) [] occupied

/-- A free gap satisfies both the size requirement and the distance bound
of an address spec (spec section 4.4), with the distance measure of the
code (absDiff64) at either the gap's base or its end-aligned position. -/
def gapAcceptable (address_spec : GumAddressSpec) (size : Nat)
    (g : GumMemoryRange) : Bool :=
  decide (size ≤ g.size)
    && (decide (absDiff64 address_spec.near_address g.base_address
          ≤ address_spec.max_distance)
      || decide (absDiff64 address_spec.near_address (g.base_address + g.size - size)
          ≤ address_spec.max_distance))

lemma gum_align_size_lt (s b : Nat) : gum_align_size s b < gsize_mod := by
  unfold gum_align_size gsize_mod
  calc (s + (b - 1)) % 2 ^ 64 / b * b ≤ (s + (b - 1)) % 2 ^ 64 := Nat.div_mul_le_self _ _
    _ < 2 ^ 64 := Nat.mod_lt _ (by positivity)

lemma sub64_lt (a b : Nat) : sub64 a b < gsize_mod := by
  unfold sub64 gsize_mod
  exact Nat.mod_lt _ (by positivity)

lemma gum_allocation_size_lt (page_size size alignment : Nat) :
    gum_allocation_size page_size size alignment < gsize_mod := by
  unfold gum_allocation_size
  exact gum_align_size_lt _ _

lemma sub64_sub64_self (x s : Nat) (hx : x < gsize_mod) (hs : s < gsize_mod) :
    sub64 x (sub64 x s) = s := by
  unfold sub64 gsize_mod at *
  omega

lemma sub64_eq_of_le (a b : Nat) (hba : b ≤ a) (ha : a < gsize_mod) :
    sub64 a b = a - b := by
  unfold sub64 gsize_mod at *
  omega

lemma add64_eq_of_lt (a b : Nat) (h : a + b < gsize_mod) : add64 a b = a + b := by
  unfold add64 gsize_mod at *
  omega

/-- C8: gum_memory_decommit first issues MADV_FREE; ENOSYS from the OS is
treated as success; EINVAL triggers exactly one retry with MADV_DONTNEED
whose outcome becomes the result; any other failure of the first (and
final) attempt yields failure. -/
theorem gum_memory_decommit_spec (madvise : Nat → Nat → Nat → Option Nat)
    (address size : Nat) :
    (gum_memory_decommit madvise address size).2.head? = some MADV_FREE
    ∧ (madvise address size MADV_FREE = none →
        gum_memory_decommit madvise address size = (true, [MADV_FREE]))
    ∧ (madvise address size MADV_FREE = some ENOSYS →
        gum_memory_decommit madvise address size = (true, [MADV_FREE]))
    ∧ (madvise address size MADV_FREE = some EINVAL →
        (gum_memory_decommit madvise address size).2 = [MADV_FREE, MADV_DONTNEED]
          ∧ ((gum_memory_decommit madvise address size).1 = true
              ↔ madvise address size MADV_DONTNEED = none))
    ∧ (∀ e, madvise address size MADV_FREE = some e → e ≠ ENOSYS → e ≠ EINVAL →
        gum_memory_decommit madvise address size = (false, [MADV_FREE])) := by
  unfold gum_memory_decommit
  cases h1 : madvise address size MADV_FREE with
  | none => simp
  | some e =>
    by_cases he1 : e = ENOSYS
    · subst he1
      simp [ENOSYS, EINVAL]
    · by_cases he2 : e = EINVAL
      · subst he2
        cases h2 : madvise address size MADV_DONTNEED with
        | none => simp [EINVAL, ENOSYS, h2]
        | some e2 => simp [EINVAL, ENOSYS, h2]
      · simp [he1, he2]

theorem gum_memory_decommit_spec_witness :
    (gum_memory_decommit (fun _ _ adv => if adv = MADV_FREE then some EINVAL else none)
        0 4096).2 = [MADV_FREE, MADV_DONTNEED]
    ∧ (gum_memory_decommit (fun _ _ adv => if adv = MADV_FREE then some EINVAL else none)
        0 4096).1 = true := by
  have h := gum_memory_decommit_spec
    (fun _ _ adv => if adv = MADV_FREE then some EINVAL else none) 0 4096
  have h4 := h.2.2.2.1 (by decide)
  exact ⟨h4.1, h4.2.mpr (by decide)⟩

/-- C6: in gum_memory_allocate, whenever the underlying page-aligned
mapping succeeds (stated here for a power-of-two alignment that is at
least the page size), the tracked allocation size left after trimming the
unaligned prefix and the surplus suffix is exactly the requested size, so
the g_assert (allocation_size == size) condition holds on every such
execution. -/
theorem gum_memory_allocate_assert_ok (page_size : Nat)
    (mm : Nat → Nat → Nat → Option Nat) (address size alignment : Nat)
    (page_prot : GumPageProtection) (m k : Nat)
    (hp : page_size = 2 ^ m) (ha : alignment = 2 ^ k)
    (hle : page_size ≤ alignment) (hsize : size < gsize_mod)
    (hmap : (gum_memory_allocate page_size mm address size alignment
        page_prot).mapped.isSome = true) :
    (gum_memory_allocate page_size mm address size alignment
        page_prot).assert_ok = true := by
  unfold gum_memory_allocate gum_allocate_page_aligned
  cases h : mm (gum_align_size address alignment)
      (gum_allocation_size page_size size alignment)
      (gum_page_protection_to_posix page_prot) with
  | none => simp [h]
  | some base =>
    simp only [h, decide_eq_true_eq]
    split_ifs with c1 c2 c3 <;>
      first
      | rfl
      | exact not_not.mp c2
      | exact not_not.mp c3
      | rw [sub64_sub64_self _ _ (sub64_lt _ _) hsize]
      | rw [sub64_sub64_self _ _ (gum_allocation_size_lt _ _ _) hsize]

theorem gum_memory_allocate_assert_ok_witness :
    (gum_memory_allocate 4096 (fun _ _ _ => some 40960) 0 5000 8192
        GUM_PAGE_RW).mapped.isSome = true
    ∧ (gum_memory_allocate 4096 (fun _ _ _ => some 40960) 0 5000 8192
        GUM_PAGE_RW).assert_ok = true := by
  refine ⟨by decide, ?_⟩
  exact gum_memory_allocate_assert_ok 4096 (fun _ _ _ => some 40960) 0 5000 8192
    GUM_PAGE_RW 12 13 (by decide) (by decide) (by decide) (by decide) (by decide)

/-- C10: gum_memory_allocate computes the over-allocation as
size + (alignment - page_size) in unsigned 64-bit arithmetic before
rounding up, so for any alignment below the page size the inner
subtraction wraps to a near-maximal value (within page_size of 2^64);
being a power of two does not prevent this. -/
theorem gum_allocation_size_wraps (page_size size alignment : Nat)
    (h1 : 0 < alignment) (h2 : alignment < page_size)
    (h3 : page_size < gsize_mod) :
    sub64 alignment page_size = gsize_mod - (page_size - alignment)
    ∧ gsize_mod - page_size < sub64 alignment page_size
    ∧ gum_allocation_size page_size size alignment
        = gum_align_size (add64 size (sub64 alignment page_size)) page_size := by
  refine ⟨?_, ?_, rfl⟩
  · unfold sub64 gsize_mod at *
    omega
  · unfold sub64 gsize_mod at *
    omega

theorem gum_allocation_size_wraps_witness :
    (2 : Nat) = 2 ^ 1
    ∧ sub64 2 4096 = gsize_mod - 4094
    ∧ gsize_mod - 4096 < sub64 2 4096 := by
  have h := gum_allocation_size_wraps 4096 5000 2 (by decide) (by decide) (by decide)
  exact ⟨by decide, h.1, h.2.1⟩

lemma gum_try_alloc_in_range_result_only (mmapFixed : Nat → Nat → Nat → Bool)
    (r : GumMemoryRange) (c : GumAllocNearContext) :
    ∃ res, (gum_try_alloc_in_range_if_near_enough mmapFixed r c).1
      = { c with result := res } := by
  unfold gum_try_alloc_in_range_if_near_enough
  dsimp only
  split_ifs <;>
    first
    | exact ⟨c.result, rfl⟩
    | exact ⟨_, rfl⟩

lemma near_scan_result_only (mmapFixed : Nat → Nat → Nat → Bool) :
    ∀ (occ : List GumMemoryRange) (acc : GumAllocNearContext × Nat), ∃ res,
    (gum_process_enumerate_ranges
        (fun r c => gum_try_alloc_in_range_if_near_enough mmapFixed r c) occ acc).1
      = { acc.1 with result := res } := by
  intro occ
  induction occ with
  | nil => intro acc; exact ⟨acc.1.result, rfl⟩
  | cons r rs ih =>
    intro acc
    unfold gum_process_enumerate_ranges gum_emit_free_range
    dsimp only
    split_ifs with h1 h2
    · obtain ⟨res1, hres1⟩ := gum_try_alloc_in_range_result_only mmapFixed
        ⟨acc.2, sub64 r.base_address acc.2⟩ acc.1
      cases hfb : gum_try_alloc_in_range_if_near_enough mmapFixed
          ⟨acc.2, sub64 r.base_address acc.2⟩ acc.1 with
      | mk c2 b =>
        rw [hfb] at hres1
        cases b
        · exact ⟨res1, hres1⟩
        · obtain ⟨res2, hres2⟩ := ih (c2, add64 r.base_address r.size)
          refine ⟨res2, ?_⟩
          rw [hres2]
          rw [show c2 = { acc.1 with result := res1 } from hres1]
    · exact ih (acc.1, add64 r.base_address r.size)
    · exact ih (acc.1, add64 r.base_address r.size)

lemma header_events_spec (result page_size size : Nat) (page_prot : GumPageProtection) :
    Event.storeWord result size ∈
      ((if page_prot.write then [] else [Event.mprotect result page_size GUM_PAGE_RW])
        ++ [Event.storeWord result size, Event.mprotect result page_size GUM_PAGE_READ])
    ∧ ((if page_prot.write then ([] : List Event)
          else [Event.mprotect result page_size GUM_PAGE_RW])
        ++ [Event.storeWord result size,
            Event.mprotect result page_size GUM_PAGE_READ]).getLast?
        = some (Event.mprotect result page_size GUM_PAGE_READ)
    ∧ ∀ a s q, Event.mprotect a s q ∈
        ((if page_prot.write then [] else [Event.mprotect result page_size GUM_PAGE_RW])
          ++ [Event.storeWord result size,
              Event.mprotect result page_size GUM_PAGE_READ]) →
        a = result ∧ s = page_size := by
  by_cases hw : page_prot.write
  · refine ⟨by simp [hw], by simp [hw], ?_⟩
    intro a s q hm
    simp [hw] at hm
    exact ⟨hm.1, hm.2.1⟩
  · refine ⟨by simp [hw], by simp [hw], ?_⟩
    intro a s q hm
    simp [hw] at hm
    rcases hm with h | h
    · exact ⟨h.1, h.2.1⟩
    · exact ⟨h.1, h.2.1⟩

lemma gum_try_alloc_n_pages_success_shape (page_size : Nat)
    (mm : Nat → Nat → Nat → Option Nat) (n_pages : Nat)
    (page_prot : GumPageProtection) (p : Nat) (evs : List Event)
    (h : gum_try_alloc_n_pages page_size mm n_pages page_prot = (some p, evs)) :
    page_size ≤ p
    ∧ evs = (if page_prot.write then []
          else [Event.mprotect (p - page_size) page_size GUM_PAGE_RW])
        ++ [Event.storeWord (p - page_size) ((1 + n_pages) * page_size),
            Event.mprotect (p - page_size) page_size GUM_PAGE_READ] := by
  simp only [gum_try_alloc_n_pages] at h
  split at h
  · simp at h
  · rename_i result heq
    simp only [Prod.mk.injEq, Option.some.injEq] at h
    obtain ⟨hp, hevs⟩ := h
    have hres : p - page_size = result := by omega
    rw [hres, ← hevs]
    exact ⟨by omega, rfl⟩

lemma gum_try_alloc_n_pages_near_success_shape (page_size : Nat)
    (mmapFixed : Nat → Nat → Nat → Bool) (occupied : List GumMemoryRange)
    (n_pages : Nat) (page_prot : GumPageProtection)
    (address_spec : GumAddressSpec) (p : Nat) (evs : List Event)
    (h : gum_try_alloc_n_pages_near page_size mmapFixed occupied n_pages
        page_prot address_spec = (some p, evs)) :
    page_size ≤ p
    ∧ evs = (if page_prot.write then []
          else [Event.mprotect (p - page_size) page_size GUM_PAGE_RW])
        ++ [Event.storeWord (p - page_size) ((1 + n_pages) * page_size),
            Event.mprotect (p - page_size) page_size GUM_PAGE_READ] := by
  obtain ⟨res, hscan⟩ := near_scan_result_only mmapFixed occupied
    ({ result := none, size := (1 + n_pages) * page_size,
       posix_page_prot := gum_page_protection_to_posix page_prot,
       address_spec := address_spec }, 0)
  simp only [gum_try_alloc_n_pages_near, gum_enumerate_free_ranges] at h
  rw [hscan] at h
  cases res with
  | none => simp at h
  | some result =>
    simp only [Prod.mk.injEq, Option.some.injEq] at h
    obtain ⟨hp, hevs⟩ := h
    have hres : p - page_size = result := by omega
    rw [hres, ← hevs]
    exact ⟨by omega, rfl⟩

/-- C9: on every successful gum_try_alloc_n_pages or
gum_try_alloc_n_pages_near call, whatever the requested protection, the
total allocation size is stored in the header page p - page_size and the
final action sets that page (and only that page: every mprotect in the
trace targets exactly the header page) to GUM_PAGE_READ, so the caller
receives a read-only header page while the usable pages keep the
protection the mapping was created with. -/
theorem header_write_then_readonly (page_size : Nat)
    (mm : Nat → Nat → Nat → Option Nat) (mmapFixed : Nat → Nat → Nat → Bool)
    (occupied : List GumMemoryRange) (n_pages : Nat)
    (page_prot : GumPageProtection) (address_spec : GumAddressSpec) :
    (∀ p evs, gum_try_alloc_n_pages page_size mm n_pages page_prot = (some p, evs) →
        Event.storeWord (p - page_size) ((1 + n_pages) * page_size) ∈ evs
        ∧ evs.getLast? = some (Event.mprotect (p - page_size) page_size GUM_PAGE_READ)
        ∧ ∀ a s q, Event.mprotect a s q ∈ evs → a = p - page_size ∧ s = page_size)
    ∧ (∀ p evs, gum_try_alloc_n_pages_near page_size mmapFixed occupied n_pages
          page_prot address_spec = (some p, evs) →
        Event.storeWord (p - page_size) ((1 + n_pages) * page_size) ∈ evs
        ∧ evs.getLast? = some (Event.mprotect (p - page_size) page_size GUM_PAGE_READ)
        ∧ ∀ a s q, Event.mprotect a s q ∈ evs → a = p - page_size ∧ s = page_size) := by
  constructor
  · intro p evs h
    rw [(gum_try_alloc_n_pages_success_shape page_size mm n_pages page_prot p evs h).2]
    exact header_events_spec (p - page_size) page_size ((1 + n_pages) * page_size)
      page_prot
  · intro p evs h
    rw [(gum_try_alloc_n_pages_near_success_shape page_size mmapFixed occupied
      n_pages page_prot address_spec p evs h).2]
    exact header_events_spec (p - page_size) page_size ((1 + n_pages) * page_size)
      page_prot

theorem header_write_then_readonly_witness :
    Event.storeWord 4096 8192
        ∈ [Event.storeWord 4096 8192, Event.mprotect 4096 4096 GUM_PAGE_READ]
    ∧ ([Event.storeWord 4096 8192,
        Event.mprotect 4096 4096 GUM_PAGE_READ] : List Event).getLast?
        = some (Event.mprotect 4096 4096 GUM_PAGE_READ) := by
  have h := (header_write_then_readonly 4096 (fun _ _ _ => some 4096)
      (fun _ _ _ => true) [] 1 GUM_PAGE_RW ⟨0, 0⟩).1 8192
      [Event.storeWord 4096 8192, Event.mprotect 4096 4096 GUM_PAGE_READ]
      (by decide)
  exact ⟨h.1, h.2.1⟩

/-- C5: a successful gum_try_alloc_n_pages returning p stores the total
size (1 + n) * page_size in the header page at p - page_size, and
gum_free_pages p recovers that size from the header and releases exactly
the region [p - page_size, p - page_size + size), succeeding exactly when
the underlying munmap does. -/
theorem alloc_free_round_trip (page_size : Nat)
    (mm : Nat → Nat → Nat → Option Nat) (n_pages : Nat)
    (page_prot : GumPageProtection) (readWord : Nat → Nat)
    (munmapOk : Nat → Nat → Bool) :
    ∀ p, (gum_try_alloc_n_pages page_size mm n_pages page_prot).1 = some p →
      Event.storeWord (p - page_size) ((1 + n_pages) * page_size)
          ∈ (gum_try_alloc_n_pages page_size mm n_pages page_prot).2
      ∧ (readWord (p - page_size) = (1 + n_pages) * page_size →
          gum_free_pages page_size readWord munmapOk p
            = ((p - page_size, (1 + n_pages) * page_size),
                munmapOk (p - page_size) ((1 + n_pages) * page_size))) := by
  intro p hp
  cases hfull : gum_try_alloc_n_pages page_size mm n_pages page_prot with
  | mk r evs =>
    rw [hfull] at hp
    simp only at hp
    subst hp
    constructor
    · rw [(gum_try_alloc_n_pages_success_shape page_size mm n_pages page_prot
        p evs hfull).2]
      exact (header_events_spec (p - page_size) page_size
        ((1 + n_pages) * page_size) page_prot).1
    · intro hr
      simp only [gum_free_pages]
      rw [hr]

theorem alloc_free_round_trip_witness :
    (gum_try_alloc_n_pages 4096 (fun _ _ _ => some 4096) 1 GUM_PAGE_RW).1 = some 8192
    ∧ gum_free_pages 4096 (fun _ => 8192) (fun _ _ => true) 8192 = ((4096, 8192), true) := by
  refine ⟨by decide, ?_⟩
  exact (alloc_free_round_trip 4096 (fun _ _ _ => some 4096) 1 GUM_PAGE_RW
    (fun _ => 8192) (fun _ _ => true) 8192 (by decide)).2 (by decide)

lemma sub64_self (a : Nat) : sub64 a a = 0 := by
  unfold sub64
  simp

lemma gum_align_size_eq_self (s b : Nat) (hb : 0 < b) (hdvd : b ∣ s)
    (hlt : s + (b - 1) < gsize_mod) : gum_align_size s b = s := by
  obtain ⟨c, rfl⟩ := hdvd
  unfold gum_align_size
  rw [Nat.mod_eq_of_lt hlt, Nat.mul_add_div hb, Nat.div_eq_of_lt (by omega),
    Nat.add_zero, Nat.mul_comm]

lemma gum_allocation_size_page (page_size size : Nat) (hb : 0 < page_size)
    (hdvd : page_size ∣ size) (hsz : size + (page_size - 1) < gsize_mod) :
    gum_allocation_size page_size size page_size = size := by
  unfold gum_allocation_size
  rw [sub64_self]
  rw [show add64 size 0 = size from by
    unfold add64; exact Nat.mod_eq_of_lt (by unfold gsize_mod at *; omega)]
  exact gum_align_size_eq_self size page_size hb hdvd hsz

/-- C3: gum_try_alloc_n_pages reserves exactly (1 + n_pages) * page_size
bytes in one mapping; on success it returns base + page_size, which is
page-aligned, and the reserved region extends exactly n_pages * page_size
usable bytes past the returned address (the extra page being the hidden
header). -/
theorem gum_try_alloc_n_pages_layout (page_size : Nat)
    (mm : Nat → Nat → Nat → Option Nat) (n_pages : Nat)
    (page_prot : GumPageProtection) (m : Nat)
    (hp : page_size = 2 ^ m) (hn : 1 ≤ n_pages)
    (hbound : (2 + n_pages) * page_size < gsize_mod)
    (horacle : ∀ b, mm 0 ((1 + n_pages) * page_size)
        (gum_page_protection_to_posix page_prot) = some b →
        page_size ∣ b ∧ b + (1 + n_pages) * page_size < gsize_mod) :
    (gum_try_alloc_n_pages page_size mm n_pages page_prot).1 = none
    ∨ ∃ b, mm 0 ((1 + n_pages) * page_size)
          (gum_page_protection_to_posix page_prot) = some b
        ∧ (gum_try_alloc_n_pages page_size mm n_pages page_prot).1
            = some (b + page_size)
        ∧ (b + page_size) % page_size = 0
        ∧ b + (1 + n_pages) * page_size = (b + page_size) + n_pages * page_size := by
  have hps : 0 < page_size := by
    rw [hp]; positivity
  have hpslt : page_size < gsize_mod := by
    have : page_size ≤ (2 + n_pages) * page_size := Nat.le_mul_of_pos_left _ (by omega)
    omega
  have h0 : gum_align_size 0 page_size = 0 := by
    refine gum_align_size_eq_self 0 page_size hps ⟨0, rfl⟩ (by omega)
  have hAS : gum_allocation_size page_size ((1 + n_pages) * page_size) page_size
      = (1 + n_pages) * page_size := by
    refine gum_allocation_size_page page_size _ hps ⟨1 + n_pages, Nat.mul_comm _ _⟩ ?_
    have : (1 + n_pages) * page_size + page_size = (2 + n_pages) * page_size := by ring
    omega
  simp only [gum_try_alloc_n_pages, gum_memory_allocate, gum_allocate_page_aligned]
  rw [h0, hAS]
  cases hmm : mm 0 ((1 + n_pages) * page_size)
      (gum_page_protection_to_posix page_prot) with
  | none => exact Or.inl rfl
  | some b =>
    obtain ⟨hdvd, hblt⟩ := horacle b hmm
    have hbb : gum_align_size b page_size = b := by
      refine gum_align_size_eq_self b page_size hps hdvd ?_
      have : page_size ≤ (1 + n_pages) * page_size := Nat.le_mul_of_pos_left _ (by omega)
      omega
    refine Or.inr ⟨b, rfl, ?_, ?_, by ring⟩
    · simp [hbb]
    · exact Nat.dvd_iff_mod_eq_zero.mp (Nat.dvd_add hdvd dvd_rfl)

theorem gum_try_alloc_n_pages_layout_witness :
    (gum_try_alloc_n_pages 4096
        (fun _ s _ => if s = 8192 then some 40960 else none) 1 GUM_PAGE_RW).1 = none
    ∨ ∃ b, (fun _ s _ => if s = 8192 then some 40960 else none) 0
          ((1 + 1) * 4096) (gum_page_protection_to_posix GUM_PAGE_RW) = some b
        ∧ (gum_try_alloc_n_pages 4096
            (fun _ s _ => if s = 8192 then some 40960 else none) 1 GUM_PAGE_RW).1
            = some (b + 4096)
        ∧ (b + 4096) % 4096 = 0
        ∧ b + (1 + 1) * 4096 = (b + 4096) + 1 * 4096 := by
  refine gum_try_alloc_n_pages_layout 4096 _ 1 GUM_PAGE_RW 12 (by decide) (by decide)
    (by decide) ?_
  intro b h
  replace h : (40960 : Nat) = b := by simpa using h
  subst h
  exact ⟨by decide, by decide⟩

lemma near_cb_cases (mmapFixed : Nat → Nat → Nat → Bool) (r : GumMemoryRange)
    (c : GumAllocNearContext) (hc : c.result = none) :
    ((gum_try_alloc_in_range_if_near_enough mmapFixed r c).1.result = none
      ∧ (gum_try_alloc_in_range_if_near_enough mmapFixed r c).2 = true)
    ∨ (∃ b, (gum_try_alloc_in_range_if_near_enough mmapFixed r c).1.result = some b
        ∧ mmapFixed b c.size c.posix_page_prot = true
        ∧ absDiff64 c.address_spec.near_address b ≤ c.address_spec.max_distance
        ∧ (gum_try_alloc_in_range_if_near_enough mmapFixed r c).2 = false) := by
  unfold gum_try_alloc_in_range_if_near_enough
  dsimp only
  split_ifs with h1 h2 h3 h4 h5 <;> dsimp only at * <;>
    first
    | exact Or.inl ⟨hc, rfl⟩
    | exact Or.inl ⟨rfl, rfl⟩
    | exact Or.inr ⟨_, rfl, by assumption, by omega, rfl⟩

lemma gum_emit_free_range_cases {σ : Type} (func : GumMemoryRange → σ → σ × Bool)
    (r : GumMemoryRange) (ud : σ) (pe : Nat) :
    gum_emit_free_range func r ud pe = ((ud, add64 r.base_address r.size), true)
    ∨ ∃ gap, gum_emit_free_range func r ud pe
        = (((func gap ud).1, add64 r.base_address r.size), (func gap ud).2) := by
  unfold gum_emit_free_range
  dsimp only
  split_ifs with h1 h2
  · exact Or.inr ⟨⟨pe, sub64 r.base_address pe⟩, rfl⟩
  · exact Or.inl rfl
  · exact Or.inl rfl

lemma near_scan_success (mmapFixed : Nat → Nat → Nat → Bool) :
    ∀ (occ : List GumMemoryRange) (acc : GumAllocNearContext × Nat) (b : Nat),
    acc.1.result = none →
    (gum_process_enumerate_ranges
        (fun r c => gum_try_alloc_in_range_if_near_enough mmapFixed r c) occ
        acc).1.result = some b →
    mmapFixed b acc.1.size acc.1.posix_page_prot = true
    ∧ absDiff64 acc.1.address_spec.near_address b
        ≤ acc.1.address_spec.max_distance := by
  intro occ
  induction occ with
  | nil =>
    intro acc b hn hs
    unfold gum_process_enumerate_ranges at hs
    rw [hn] at hs
    simp at hs
  | cons r rs ih =>
    intro acc b hn hs
    unfold gum_process_enumerate_ranges at hs
    rcases gum_emit_free_range_cases
        (fun r c => gum_try_alloc_in_range_if_near_enough mmapFixed r c)
        r acc.1 acc.2 with hE | ⟨gap, hE⟩
    · rw [hE] at hs
      dsimp only at hs
      exact ih (acc.1, add64 r.base_address r.size) b hn hs
    · rw [hE] at hs
      rcases near_cb_cases mmapFixed gap acc.1 hn with
        ⟨hres, hcarry⟩ | ⟨bb, hres, hmm, hdist, hcarry⟩
      · rw [hcarry] at hs
        dsimp only at hs
        have hrec := ih ((gum_try_alloc_in_range_if_near_enough mmapFixed gap
          acc.1).1, add64 r.base_address r.size) b hres hs
        obtain ⟨res1, hro⟩ := gum_try_alloc_in_range_result_only mmapFixed gap acc.1
        rw [hro] at hrec
        exact hrec
      · rw [hcarry] at hs
        dsimp only at hs
        rw [hres] at hs
        obtain rfl : bb = b := by
          simpa using hs
        exact ⟨hmm, hdist⟩

/-- C7: inside the near-address scan, a failed fixed-address mapping at an
accepted candidate is absorbed: the per-range callback reports "carry on"
with the recorded result still empty, it stops the scan only when a fixed
mapping succeeded, an everywhere-failing fixed mmap makes the whole call
return none after the scan completes, and any successful return came from
a fixed mapping that succeeded. -/
theorem near_alloc_miss_nonfatal (page_size : Nat)
    (mmapFixed : Nat → Nat → Nat → Bool) (occupied : List GumMemoryRange)
    (n_pages : Nat) (page_prot : GumPageProtection)
    (address_spec : GumAddressSpec) :
    (∀ (r : GumMemoryRange) (c : GumAllocNearContext), c.result = none →
        (gum_try_alloc_in_range_if_near_enough mmapFixed r c).2 = true →
        (gum_try_alloc_in_range_if_near_enough mmapFixed r c).1.result = none)
    ∧ (∀ (r : GumMemoryRange) (c : GumAllocNearContext), c.result = none →
        (gum_try_alloc_in_range_if_near_enough mmapFixed r c).2 = false →
        ∃ b, (gum_try_alloc_in_range_if_near_enough mmapFixed r c).1.result = some b
          ∧ mmapFixed b c.size c.posix_page_prot = true)
    ∧ ((∀ a s q, mmapFixed a s q = false) →
        (gum_try_alloc_n_pages_near page_size mmapFixed occupied n_pages
          page_prot address_spec).1 = none)
    ∧ (∀ p, (gum_try_alloc_n_pages_near page_size mmapFixed occupied n_pages
          page_prot address_spec).1 = some p →
        ∃ b, p = b + page_size
          ∧ mmapFixed b ((1 + n_pages) * page_size)
              (gum_page_protection_to_posix page_prot) = true) := by
  refine ⟨?_, ?_, ?_, ?_⟩
  · intro r c hc hcarry
    rcases near_cb_cases mmapFixed r c hc with ⟨hres, _⟩ | ⟨b, _, _, _, hfalse⟩
    · exact hres
    · rw [hcarry] at hfalse
      exact absurd hfalse (by simp)
  · intro r c hc hcarry
    rcases near_cb_cases mmapFixed r c hc with ⟨_, htrue⟩ | ⟨b, hres, hmm, _, _⟩
    · rw [hcarry] at htrue
      exact absurd htrue (by simp)
    · exact ⟨b, hres, hmm⟩
  · intro hfail
    obtain ⟨res, hscan⟩ := near_scan_result_only mmapFixed occupied
      ({ result := none, size := (1 + n_pages) * page_size,
         posix_page_prot := gum_page_protection_to_posix page_prot,
         address_spec := address_spec }, 0)
    cases res with
    | some b =>
      exfalso
      have hsucc := near_scan_success mmapFixed occupied
        ({ result := none, size := (1 + n_pages) * page_size,
           posix_page_prot := gum_page_protection_to_posix page_prot,
           address_spec := address_spec }, 0) b rfl (by rw [hscan])
      exact absurd hsucc.1 (by simp [hfail])
    | none =>
      simp only [gum_try_alloc_n_pages_near, gum_enumerate_free_ranges]
      rw [hscan]
  · intro p hp
    obtain ⟨res, hscan⟩ := near_scan_result_only mmapFixed occupied
      ({ result := none, size := (1 + n_pages) * page_size,
         posix_page_prot := gum_page_protection_to_posix page_prot,
         address_spec := address_spec }, 0)
    simp only [gum_try_alloc_n_pages_near, gum_enumerate_free_ranges] at hp
    rw [hscan] at hp
    cases res with
    | none => simp at hp
    | some b =>
      have hsucc := near_scan_success mmapFixed occupied
        ({ result := none, size := (1 + n_pages) * page_size,
           posix_page_prot := gum_page_protection_to_posix page_prot,
           address_spec := address_spec }, 0) b rfl (by rw [hscan])
      simp only [Option.some.injEq] at hp
      exact ⟨b, hp.symm, hsucc.1⟩

theorem near_alloc_miss_nonfatal_witness :
    (gum_try_alloc_n_pages_near 4096 (fun _ _ _ => false)
        [⟨0, 4096⟩, ⟨16384, 4096⟩] 1 GUM_PAGE_RW ⟨4096, 0⟩).1 = none := by
  exact (near_alloc_miss_nonfatal 4096 (fun _ _ _ => false)
    [⟨0, 4096⟩, ⟨16384, 4096⟩] 1 GUM_PAGE_RW ⟨4096, 0⟩).2.2.1 (fun _ _ _ => rfl)

lemma wfFrom_cons (pe : Nat) (r : GumMemoryRange) (rs : List GumMemoryRange)
    (h : wfFrom pe (r :: rs) = true) :
    pe ≤ r.base_address ∧ 0 < r.size ∧ r.base_address + r.size < gsize_mod
      ∧ wfFrom (r.base_address + r.size) rs = true := by
  unfold wfFrom at h
  simp only [Bool.and_eq_true, decide_eq_true_eq] at h
  exact ⟨h.1.1.1, h.1.1.2, h.1.2, h.2⟩

lemma scan_eq_foldStop_aux {σ : Type} (func : GumMemoryRange → σ → σ × Bool) :
    ∀ (occ : List GumMemoryRange) (s : σ) (pe : Nat), 0 < pe →
    wfFrom pe occ = true →
    (gum_process_enumerate_ranges func occ (s, pe)).1
      = foldStop func s (specGapsFrom pe occ) := by
  intro occ
  induction occ with
  | nil => intro s pe _ _; rfl
  | cons r rs ih =>
    intro s pe hpe hwf
    obtain ⟨hle, hsz, hlt, hwfrest⟩ := wfFrom_cons pe r rs hwf
    have he : add64 r.base_address r.size = r.base_address + r.size :=
      add64_eq_of_lt _ _ hlt
    have hgap : sub64 r.base_address pe = r.base_address - pe :=
      sub64_eq_of_le _ _ hle (by omega)
    unfold gum_process_enumerate_ranges gum_emit_free_range
    dsimp only
    rw [if_pos (by omega : pe ≠ 0), hgap, he]
    unfold specGapsFrom
    by_cases hlt2 : pe < r.base_address
    · rw [if_pos (by omega : 0 < r.base_address - pe), if_pos hlt2]
      unfold foldStop
      cases hf : func ⟨pe, r.base_address - pe⟩ s with
      | mk s2 carry =>
        cases carry
        · rfl
        · exact ih s2 (r.base_address + r.size) (by omega) hwfrest
    · rw [if_neg (by omega : ¬ 0 < r.base_address - pe), if_neg hlt2]
      exact ih s (r.base_address + r.size) (by omega) hwfrest

lemma scan_eq_foldStop {σ : Type} (func : GumMemoryRange → σ → σ × Bool)
    (occ : List GumMemoryRange) (s : σ) (hwf : wfFrom 0 occ = true) :
    gum_enumerate_free_ranges func s occ = foldStop func s (specGaps occ) := by
  cases occ with
  | nil => rfl
  | cons r rs =>
    obtain ⟨_, hsz, hlt, hwfrest⟩ := wfFrom_cons 0 r rs hwf
    have he : add64 r.base_address r.size = r.base_address + r.size :=
      add64_eq_of_lt _ _ hlt
    unfold gum_enumerate_free_ranges gum_process_enumerate_ranges
      gum_emit_free_range
    dsimp only
    rw [if_neg (by omega : ¬ (0 : Nat) ≠ 0), he]
    unfold specGaps
    exact scan_eq_foldStop_aux func rs s (r.base_address + r.size)
      (by omega) hwfrest

lemma foldStop_collect (p : GumMemoryRange → Bool) :
    ∀ (gaps : List GumMemoryRange) (acc : List GumMemoryRange),
    foldStop (fun r a => (a ++ [r], p r)) acc gaps
      = acc ++ takeThroughStop p gaps := by
  intro gaps
  induction gaps with
  | nil => intro acc; simp [foldStop, takeThroughStop]
  | cons g gs ih =>
    intro acc
    unfold foldStop takeThroughStop
    cases hp : p g
    · simp
    · simp only [if_pos rfl]
      rw [ih (acc ++ [g])]
      simp

/-- C2: driven by a well-formed collaborator feed (strictly ascending,
non-overlapping occupied ranges), the free-range scanner delivers to the
client callback exactly the gaps lying strictly between consecutive
occupied ranges, in order, up to and including the first gap at which the
client signals stop: nothing before the first occupied range, nothing
after the last, one range {prevEnd, base - prevEnd} per positive gap. -/
theorem free_range_scan_spec (p : GumMemoryRange → Bool)
    (occupied : List GumMemoryRange) (hwf : wfFrom 0 occupied = true) :
    collectFreeRanges p occupied = takeThroughStop p (specGaps occupied) := by
  unfold collectFreeRanges
  rw [scan_eq_foldStop _ _ _ hwf, foldStop_collect]
  simp

theorem free_range_scan_spec_witness :
    wfFrom 0 [⟨0, 100⟩, ⟨150, 50⟩] = true
    ∧ collectFreeRanges (fun _ => true) [⟨0, 100⟩, ⟨150, 50⟩]
        = [⟨100, 50⟩] := by
  refine ⟨by decide, ?_⟩
  rw [free_range_scan_spec (fun _ => true) [⟨0, 100⟩, ⟨150, 50⟩] (by decide)]
  decide

lemma specGapsFrom_bound :
    ∀ (occ : List GumMemoryRange) (pe : Nat), wfFrom pe occ = true →
    ∀ g ∈ specGapsFrom pe occ, g.base_address + g.size < gsize_mod := by
  intro occ
  induction occ with
  | nil => intro pe _ g hg; simp [specGapsFrom] at hg
  | cons r rs ih =>
    intro pe hwf g hg
    obtain ⟨hle, hsz, hlt, hwfrest⟩ := wfFrom_cons pe r rs hwf
    unfold specGapsFrom at hg
    by_cases h : pe < r.base_address
    · rw [if_pos h] at hg
      rcases List.mem_cons.mp hg with rfl | hg2
      · dsimp only
        omega
      · exact ih (r.base_address + r.size) hwfrest g hg2
    · rw [if_neg h] at hg
      exact ih (r.base_address + r.size) hwfrest g hg

lemma specGaps_bound (occ : List GumMemoryRange) (hwf : wfFrom 0 occ = true) :
    ∀ g ∈ specGaps occ, g.base_address + g.size < gsize_mod := by
  cases occ with
  | nil => intro g hg; simp [specGaps] at hg
  | cons r rs =>
    obtain ⟨_, _, hlt, hwfrest⟩ := wfFrom_cons 0 r rs hwf
    intro g hg
    exact specGapsFrom_bound rs (r.base_address + r.size) hwfrest g hg

lemma near_cb_unacceptable (mmapFixed : Nat → Nat → Nat → Bool)
    (r : GumMemoryRange) (c : GumAllocNearContext)
    (hbound : r.base_address + r.size < gsize_mod)
    (hna : gapAcceptable c.address_spec c.size r = false) :
    gum_try_alloc_in_range_if_near_enough mmapFixed r c = (c, true) := by
  unfold gum_try_alloc_in_range_if_near_enough
  dsimp only
  by_cases h1 : r.size < c.size
  · rw [if_pos h1]
  · rw [if_neg h1]
    simp only [gapAcceptable, Bool.and_eq_false_iff, Bool.or_eq_false_iff,
      decide_eq_false_iff_not, not_le] at hna
    rcases hna with hna | ⟨hd1, hd2⟩
    · omega
    · have hcs : c.size ≤ r.base_address + r.size := by omega
      have hb2 : sub64 (add64 r.base_address r.size) c.size
          = r.base_address + r.size - c.size := by
        rw [add64_eq_of_lt _ _ hbound]
        exact sub64_eq_of_le _ _ hcs hbound
      rw [if_pos hd1]
      dsimp only
      rw [hb2, if_pos hd2]

lemma foldStop_unacceptable (mmapFixed : Nat → Nat → Nat → Bool) :
    ∀ (gaps : List GumMemoryRange) (c : GumAllocNearContext),
    (∀ g ∈ gaps, g.base_address + g.size < gsize_mod
      ∧ gapAcceptable c.address_spec c.size g = false) →
    foldStop (fun r c2 => gum_try_alloc_in_range_if_near_enough mmapFixed r c2)
      c gaps = c := by
  intro gaps
  induction gaps with
  | nil => intro c _; rfl
  | cons g gs ih =>
    intro c hall
    obtain ⟨hb, hna⟩ := hall g (List.mem_cons_self g gs)
    unfold foldStop
    rw [near_cb_unacceptable mmapFixed g c hb hna]
    exact ih c (fun g2 hg2 => hall g2 (List.mem_cons_of_mem _ hg2))

/-- C1 counterexample: with page size 4096, occupied ranges [0, 4096) and
[16384, 20480) (free gap [4096, 16384)), one requested page, target 4096
and maxDistance 0, the near allocator succeeds at mapping base 4096 and
returns p = 8192; but neither the distance from p itself nor the distance
from the end of p's region (12288) to the target is within maxDistance —
the code bounds the distance of the mapping base p - pageSize, not of p or
of the region end. -/
theorem near_alloc_claim_counterexample :
    (gum_try_alloc_n_pages_near 4096 (fun _ _ _ => true)
        [⟨0, 4096⟩, ⟨16384, 4096⟩] 1 GUM_PAGE_RW ⟨4096, 0⟩).1 = some 8192
    ∧ ¬ (absDiff64 4096 8192 ≤ 0 ∨ absDiff64 4096 (8192 + 1 * 4096) ≤ 0) := by
  decide

/-- C1 (amended): for every successful gum_try_alloc_n_pages_near call
returning p, the backing region's mapping base b = p - pageSize (either a
gap's base or its end-aligned position) satisfies
absDiff64 target b ≤ maxDistance; and when no free gap between the
occupied ranges satisfies both the size requirement (n + 1 pages) and the
distance bound at either candidate position, the call returns none. -/
theorem near_alloc_distance_spec (page_size : Nat)
    (mmapFixed : Nat → Nat → Nat → Bool) (occupied : List GumMemoryRange)
    (n_pages : Nat) (page_prot : GumPageProtection)
    (address_spec : GumAddressSpec) (hwf : wfFrom 0 occupied = true) :
    (∀ p, (gum_try_alloc_n_pages_near page_size mmapFixed occupied n_pages
          page_prot address_spec).1 = some p →
        ∃ b, p = b + page_size
          ∧ absDiff64 address_spec.near_address b ≤ address_spec.max_distance)
    ∧ ((∀ g ∈ specGaps occupied,
          gapAcceptable address_spec ((1 + n_pages) * page_size) g = false) →
        (gum_try_alloc_n_pages_near page_size mmapFixed occupied n_pages
          page_prot address_spec).1 = none) := by
  constructor
  · intro p hp
    obtain ⟨res, hscan⟩ := near_scan_result_only mmapFixed occupied
      ({ result := none, size := (1 + n_pages) * page_size,
         posix_page_prot := gum_page_protection_to_posix page_prot,
         address_spec := address_spec }, 0)
    simp only [gum_try_alloc_n_pages_near, gum_enumerate_free_ranges] at hp
    rw [hscan] at hp
    cases res with
    | none => simp at hp
    | some b =>
      have hsucc := near_scan_success mmapFixed occupied
        ({ result := none, size := (1 + n_pages) * page_size,
           posix_page_prot := gum_page_protection_to_posix page_prot,
           address_spec := address_spec }, 0) b rfl (by rw [hscan])
      simp only [Option.some.injEq] at hp
      exact ⟨b, hp.symm, hsucc.2⟩
  · intro hno
    have hctx : gum_enumerate_free_ranges
        (fun r c => gum_try_alloc_in_range_if_near_enough mmapFixed r c)
        ({ result := none, size := (1 + n_pages) * page_size,
           posix_page_prot := gum_page_protection_to_posix page_prot,
           address_spec := address_spec } : GumAllocNearContext) occupied
        = { result := none, size := (1 + n_pages) * page_size,
            posix_page_prot := gum_page_protection_to_posix page_prot,
            address_spec := address_spec } := by
      rw [scan_eq_foldStop _ _ _ hwf]
      refine foldStop_unacceptable mmapFixed (specGaps occupied) _ ?_
      intro g hg
      exact ⟨specGaps_bound occupied hwf g hg, hno g hg⟩
    simp only [gum_try_alloc_n_pages_near]
    rw [hctx]

theorem near_alloc_distance_spec_witness :
    ∃ b, (8192 : Nat) = b + 4096 ∧ absDiff64 4096 b ≤ 0 := by
  exact (near_alloc_distance_spec 4096 (fun _ _ _ => true)
    [⟨0, 4096⟩, ⟨16384, 4096⟩] 1 GUM_PAGE_RW ⟨4096, 0⟩ (by decide)).1 8192 (by decide)

